import Mathlib

/-!
# Verification of the angular-three event-routing core

A shallow embedding of `libs/core-new/src/lib/events.ts`,
`libs/core-new/src/lib/canvas.ts`, the `makeId` helper from
`libs/core-new/src/lib/utils/make.ts`, and the `injectRay` registration from
the cannon physics bridge, together with proofs of the spec claims about
them.

Modelling conventions:
* Scene-graph objects (`Object3D`) are identified by their numeric `uuid`
  (`===` identity comparison in the source is modelled as uuid equality);
  the `parent` chain is the inductive structure.
* JavaScript `Map`s are modelled as association lists with unique keys;
  `Map.set` replaces in place or appends, `Map.delete` filters the key out.
* `getLocalState` is a parameter `env : Nat → Option NgtLocalState` mapping
  an object's uuid to its registered local state.
* JS numbers used for distances/coordinates are modelled as `Int`/`ℚ`;
  `event.index`/`event.instanceId` may be `undefined`, modelled as
  `Option Nat`, and string coercion of `undefined` is the literal
  `"undefined"`, as in JS.
-/

set_option autoImplicit false

namespace AngularThree

/-- A scene-graph node: a uuid plus the `parent` chain (`null` parent for a
root). -/
inductive Object3D where
  | root (uuid : Nat)
  | child (uuid : Nat) (parent : Object3D)
  deriving DecidableEq, Repr

def Object3D.uuid : Object3D → Nat
  | .root u => u
  | .child u _ => u

/-- The registered event handlers of an object (`NgtEventHandlers`); `true`
means the handler is present. -/
structure NgtHandlers where
  click : Bool := false
  contextmenu : Bool := false
  dblclick : Bool := false
  pointerup : Bool := false
  pointerdown : Bool := false
  pointerover : Bool := false
  pointerenter : Bool := false
  pointerout : Bool := false
  pointerleave : Bool := false
  pointermove : Bool := false
  pointermissed : Bool := false
  deriving DecidableEq, Repr

/-- The slice of an object's local state (`getLocalState`) that the event
manager reads: handler presence, the `eventCount`, and the owning event
layer's `events.priority`. -/
structure NgtLocalState where
  handlers : NgtHandlers
  eventCount : Nat
  priority : Int
  deriving DecidableEq, Repr

/-- `getLocalState` by uuid. -/
abbrev LocalEnv := Nat → Option NgtLocalState

/-- `getLocalState(obj)?.eventCount`, `undefined` coercing to `0`. -/
def eventCountOf (env : LocalEnv) (u : Nat) : Nat :=
  match env u with
  | some s => s.eventCount
  | none => 0

/-- An intersection record (`NgtIntersection`).  Raw raycast hits have
`eventObject = none`; the bubbling phase fills it in
(`{...hit, eventObject}`). -/
structure Hit where
  obj : Object3D
  distance : Int
  index : Option Nat
  instanceId : Option Nat
  eventObject : Option Nat
  deriving DecidableEq, Repr

/-- `(event.eventObject || event.object).uuid`. -/
def eventObjOf (h : Hit) : Nat :=
  h.eventObject.getD h.obj.uuid

/-- JS string coercion of a possibly-`undefined` number. -/
def optNatStr : Option Nat → String
  | none => "undefined"
  | some n => toString n

/-- `makeId` from `utils/make.ts`:
`(event.eventObject || event.object).uuid + '/' + event.index + event.instanceId`.
Note there is no separator between `index` and `instanceId`. -/
def makeId (h : Hit) : String :=
  toString (eventObjOf h) ++ "/" ++ optNatStr h.index ++ optNatStr h.instanceId

/-- A pointer-capture record (`NgtPointerCaptureTarget`): the intersection
snapshot and the platform element (`event.target`), identified by a numeric
id. -/
structure NgtPointerCaptureTarget where
  intersection : Hit
  target : Nat
  deriving DecidableEq, Repr

/-- `internal.capturedMap : Map<number, Map<Object3D, NgtPointerCaptureTarget>>`,
as an association list keyed by pointer id, whose values are association
lists keyed by the capturing object's uuid. -/
abbrev CapturedMap := List (Nat × List (Nat × NgtPointerCaptureTarget))

/-- `Map.set k v` / JS object property assignment: replace the entry with
key `k` in place if present, else append. -/
def alSet {α : Type} (k : Nat) (v : α) : List (Nat × α) → List (Nat × α)
  | [] => [(k, v)]
  | (k', v') :: rest => if k' = k then (k, v) :: rest else (k', v') :: alSet k v rest

/-- `Map.delete k` (a JS map holds at most one entry per key, so deleting is
filtering the key out). -/
def alDelete {α : Type} (k : Nat) (l : List (Nat × α)) : List (Nat × α) :=
  l.filter (fun e => e.1 ≠ k)

/-- `stopPropagation`'s authorization check (events.ts lines 296–305):
stopping is authorized iff the pointer is not captured
(`!capturesForPointer`) or the hit's `eventObject` is one of the capturing
objects (`capturesForPointer.has(hit.eventObject)`).  `pid = none` models an
event without a `pointerId` field. -/
def stopAllowed (cm : CapturedMap) (pid : Option Nat) (eventObject : Nat) : Bool :=
  match pid with
  | none => true
  | some p =>
    match cm.lookup p with
    | none => true
    | some caps => (caps.lookup eventObject).isSome

/-- The dispatch loop of `handleIntersects` (events.ts lines 241–331):
the callback runs for each intersection in order; `stops h = true` means the
handler for `h` calls `stopPropagation()` on its synthesized event, which
sets the shared `localState.stopped` flag only when `stopAllowed`; a set
flag breaks the loop after the current hit.  Returns the list of
intersections whose callback ran and the final `stopped` flag. -/
def dispatchRun (cm : CapturedMap) (pid : Option Nat) (stops : Hit → Bool) :
    List Hit → List Hit × Bool
  | [] => ([], false)
  | hit :: rest =>
    if stops hit && stopAllowed cm pid (eventObjOf hit) then ([hit], true)
    else
      let r := dispatchRun cm pid stops rest
      (hit :: r.1, r.2)

/-- Take elements until (and including) the first one satisfying `p`. -/
def takeThrough {α : Type} (p : α → Bool) : List α → List α
  | [] => []
  | a :: l => if p a then [a] else a :: takeThrough p l

theorem dispatchRun_eq (cm : CapturedMap) (pid : Option Nat) (stops : Hit → Bool)
    (is : List Hit) :
    dispatchRun cm pid stops is
      = (takeThrough (fun h => stops h && stopAllowed cm pid (eventObjOf h)) is,
         is.any (fun h => stops h && stopAllowed cm pid (eventObjOf h))) := by
  induction is with
  | nil => rfl
  | cons hit rest ih =>
    simp only [dispatchRun, takeThrough, List.any_cons, ih]
    by_cases h : (stops hit && stopAllowed cm pid (eventObjOf hit)) = true
    · simp [h]
    · simp [h, Bool.or_eq_true]

theorem takeThrough_of_none {α : Type} (p : α → Bool) (l : List α)
    (h : ∀ a ∈ l, p a = false) : takeThrough p l = l := by
  induction l with
  | nil => rfl
  | cons a t ih =>
    have ha := h a (List.mem_cons_self a t)
    rw [takeThrough, if_neg (by simp [ha]), ih (fun x hx => h x (List.mem_cons_of_mem a hx))]

theorem dispatchRun_append_stop (cm : CapturedMap) (pid : Option Nat) (stops : Hit → Bool)
    (l₁ : List Hit) (h : Hit) (l₂ : List Hit)
    (hnone : ∀ h' ∈ l₁, ¬(stops h' = true ∧ stopAllowed cm pid (eventObjOf h') = true))
    (hstop : stops h = true) (hallow : stopAllowed cm pid (eventObjOf h) = true) :
    dispatchRun cm pid stops (l₁ ++ h :: l₂) = (l₁ ++ [h], true) := by
  induction l₁ with
  | nil => simp [dispatchRun, hstop, hallow]
  | cons a t ih =>
    have ha := hnone a (List.mem_cons_self a t)
    have hcond : (stops a && stopAllowed cm pid (eventObjOf a)) = false := by
      cases hs : stops a <;> cases hb : stopAllowed cm pid (eventObjOf a) <;> simp_all
    have ih' := ih (fun x hx => hnone x (List.mem_cons_of_mem a hx))
    simp [List.cons_append, dispatchRun, hcond, ih']

/-- C1: during one dispatch pass of `handleIntersects`, an authorized
`stopPropagation` at a hit sets the pass-wide `stopped` flag so that no
later intersection receives the event; when the event's `pointerId` is
present in `capturedMap`, `stopPropagation` is a no-op (the flag stays
`false` and dispatch continues through the remaining hits) unless the
current hit's `eventObject` is one of the objects capturing that pointer. -/
theorem c1_stopPropagation_capture_contract
    (cm : CapturedMap) (pid : Option Nat) (stops : Hit → Bool) :
    -- an authorized stop at `h` ends the pass right after `h`
    (∀ l₁ h l₂, (∀ h' ∈ l₁, ¬(stops h' = true ∧ stopAllowed cm pid (eventObjOf h') = true)) →
       stops h = true → stopAllowed cm pid (eventObjOf h) = true →
       dispatchRun cm pid stops (l₁ ++ h :: l₂) = (l₁ ++ [h], true))
    ∧ -- if every stopPropagation call is rejected (or absent), the flag stays
      -- false and every intersection in the pass receives the event
    (∀ is : List Hit, (∀ h ∈ is, ¬(stops h = true ∧ stopAllowed cm pid (eventObjOf h) = true)) →
       dispatchRun cm pid stops is = (is, false))
    ∧ -- with the pointerId captured, stopping is authorized exactly for the
      -- capturing eventObjects
    (∀ p caps obj, pid = some p → cm.lookup p = some caps →
       stopAllowed cm pid obj = (caps.lookup obj).isSome)
    ∧ -- with no capture record for the pointerId, stopping is always authorized
    (∀ p obj, pid = some p → cm.lookup p = none → stopAllowed cm pid obj = true) := by
  refine ⟨dispatchRun_append_stop cm pid stops, ?_, ?_, ?_⟩
  · intro is hnone
    rw [dispatchRun_eq, Prod.mk.injEq]
    constructor
    · rw [takeThrough_of_none]
      intro a ha
      have := hnone a ha
      cases hs : stops a <;> cases hb : stopAllowed cm pid (eventObjOf a) <;> simp_all
    · rw [List.any_eq_false]
      intro a ha
      have := hnone a ha
      cases hs : stops a <;> cases hb : stopAllowed cm pid (eventObjOf a) <;> simp_all
  · intro p caps obj hpid hcaps
    simp [stopAllowed, hpid, hcaps]
  · intro p obj hpid hcaps
    simp [stopAllowed, hpid, hcaps]

/-- Concrete objects and hits for the C1 witness: pointer 7 is captured by
object 2; object 1's handler calls `stopPropagation` but is not capturing,
so dispatch continues; object 2's call is authorized and stops the pass
before object 3. -/
def hitW (u : Nat) : Hit :=
  { obj := Object3D.root u, distance := 0, index := none, instanceId := none,
    eventObject := some u }

def capMapW : CapturedMap := [(7, [(2, ⟨hitW 2, 9⟩)])]

theorem c1_stopPropagation_capture_contract_witness :
    dispatchRun capMapW (some 7) (fun _ => true) ([hitW 1] ++ hitW 2 :: [hitW 3])
      = ([hitW 1] ++ [hitW 2], true) :=
  (c1_stopPropagation_capture_contract capMapW (some 7) (fun _ => true)).1
    [hitW 1] (hitW 2) [hitW 3] (by decide) (by decide) (by decide)

/-! ## Bubbling (`intersect`, events.ts lines 211–219) -/

/-- The walk `hit.object`, `hit.object.parent`, … up to the root, in
child-to-root order. -/
def ancestors : Object3D → List Object3D
  | .root u => [.root u]
  | .child u p => .child u p :: ancestors p

/-- The `while (eventObject)` loop of `intersect`: starting at `hit.object`,
push `{...hit, eventObject}` for every node whose local state has a truthy
`eventCount`, then move to `parent`. -/
def bubbleWalk (env : LocalEnv) (hit : Hit) : Object3D → List Hit
  | .root u =>
    if eventCountOf env u ≠ 0 then [{ hit with eventObject := some u }] else []
  | .child u p =>
    (if eventCountOf env u ≠ 0 then [{ hit with eventObject := some u }] else [])
      ++ bubbleWalk env hit p

def bubbleHit (env : LocalEnv) (hit : Hit) : List Hit :=
  bubbleWalk env hit hit.obj

/-- The `for (const hit of hits)` loop: all synthesized intersections, one
block per raw hit. -/
def intersectBubble (env : LocalEnv) (hits : List Hit) : List Hit :=
  hits.flatMap (bubbleHit env)

theorem bubbleWalk_eq_filter (env : LocalEnv) (hit : Hit) (o : Object3D) :
    bubbleWalk env hit o
      = ((ancestors o).filter (fun a => eventCountOf env a.uuid != 0)).map
          (fun a => { hit with eventObject := some a.uuid }) := by
  induction o with
  | root u =>
    by_cases h : eventCountOf env u = 0 <;>
      simp [bubbleWalk, ancestors, Object3D.uuid, h]
  | child u p ih =>
    by_cases h : eventCountOf env u = 0 <;>
      simp [bubbleWalk, ancestors, Object3D.uuid, h, ih]

/-- C2: `intersect` emits, per raw hit, one synthesized intersection per
node of the parent-chain walk whose local state has `eventCount > 0`, in
child-to-root order (the hit object's own entry comes first when it has
handlers), and `handleIntersects` visits the synthesized list in exactly
that order until the `stopped` flag is set. -/
theorem c2_bubble_order (env : LocalEnv) (cm : CapturedMap) (pid : Option Nat)
    (stops : Hit → Bool) :
    -- one synthesized intersection per eventCount-bearing ancestor, child→root
    (∀ hit : Hit, bubbleHit env hit
       = ((ancestors hit.obj).filter (fun a => eventCountOf env a.uuid != 0)).map
           (fun a => { hit with eventObject := some a.uuid }))
    ∧ -- the full list is the concatenation over raw hits, in hit order
    (∀ hits : List Hit, intersectBubble env hits = hits.flatMap (bubbleHit env))
    ∧ -- the hit object's own entry leads its block when it has handlers
    (∀ hit : Hit, eventCountOf env hit.obj.uuid ≠ 0 →
       (bubbleHit env hit).head? = some { hit with eventObject := some hit.obj.uuid })
    ∧ -- dispatch visits the synthesized list in order, stopping with the flag
    (∀ hits : List Hit,
       (dispatchRun cm pid stops (intersectBubble env hits)).1
         = takeThrough (fun h => stops h && stopAllowed cm pid (eventObjOf h))
             (intersectBubble env hits)) := by
  refine ⟨fun hit => bubbleWalk_eq_filter env hit hit.obj, fun _ => rfl, ?_, ?_⟩
  · intro hit hcount
    rw [bubbleHit]
    cases hobj : hit.obj with
    | root u =>
      rw [hobj] at hcount
      simp only [Object3D.uuid] at hcount
      simp [bubbleWalk, hcount, Object3D.uuid, hobj]
    | child u p =>
      rw [hobj] at hcount
      simp only [Object3D.uuid] at hcount
      simp [bubbleWalk, hcount, Object3D.uuid, hobj]
  · intro hits
    rw [dispatchRun_eq]

/-- Concrete scene for the C2 witness: object 10 (with handlers) is a child
of 20 (no handlers) which is a child of 30 (with handlers); the bubble walk
of a hit on 10 yields entries for 10 then 30. -/
def envW : LocalEnv := fun u =>
  if u = 10 then some ⟨{ pointerdown := true }, 1, 0⟩
  else if u = 30 then some ⟨{ pointerdown := true }, 1, 0⟩
  else none

def hitW10 : Hit :=
  { obj := Object3D.child 10 (Object3D.child 20 (Object3D.root 30)),
    distance := 5, index := some 0, instanceId := none, eventObject := none }

theorem c2_bubble_order_witness :
    (bubbleHit envW hitW10).head? = some { hitW10 with eventObject := some 10 } :=
  (c2_bubble_order envW [] none (fun _ => false)).2.2.1 hitW10 (by decide)

/-! ## Sorting and deduplication (`intersect`, events.ts lines 188–205) -/

/-- The sort comparator (events.ts lines 193–198) as the total preorder it
induces: `hitLE env a b` iff the comparator places `a` at or before `b`
(`comparator(a,b) ≤ 0`): event-layer priority descending first, intersection
distance ascending second, with a plain distance comparison when either
object has no registered state. -/
def hitLE (env : LocalEnv) (a b : Hit) : Bool :=
  match env a.obj.uuid, env b.obj.uuid with
  | some sa, some sb =>
    if sb.priority = sa.priority then decide (a.distance ≤ b.distance)
    else decide (sb.priority < sa.priority)
  | _, _ => decide (a.distance ≤ b.distance)

/-- Stable insertion into a sorted list: `a` goes before the first element
it compares `≤` to. -/
def sortInsert {α : Type} (le : α → α → Bool) (a : α) : List α → List α
  | [] => [a]
  | b :: l => if le a b then a :: b :: l else b :: sortInsert le a l

/-- `Array.prototype.sort(comparator)`: JS sort is stable, and for a
consistent comparator its output is the unique stable sorted permutation,
which stable insertion sort computes. -/
def sortByComparator {α : Type} (le : α → α → Bool) : List α → List α
  | [] => []
  | a :: l => sortInsert le a (sortByComparator le l)

def sortHits (env : LocalEnv) (raw : List Hit) : List Hit :=
  sortByComparator (hitLE env) raw

/-- The duplicate filter (events.ts lines 199–205), threading the
`duplicates` seen-set of `makeId` strings. -/
def dedupById (seen : List String) : List Hit → List Hit
  | [] => []
  | h :: t =>
    if makeId h ∈ seen then dedupById seen t
    else h :: dedupById (makeId h :: seen) t

/-- The hit list built by `intersect` before bubbling: raycast results
sorted by the comparator, then duplicate-filtered. -/
def buildHits (env : LocalEnv) (raw : List Hit) : List Hit :=
  dedupById [] (sortHits env raw)

/-- The sort order the spec claims: priority descending as primary key,
distance ascending as secondary key. -/
def specLE (env : LocalEnv) (a b : Hit) : Prop :=
  (∀ sa ∈ env a.obj.uuid, ∀ sb ∈ env b.obj.uuid,
    sb.priority < sa.priority ∨ (sa.priority = sb.priority ∧ a.distance ≤ b.distance))

theorem mem_sortInsert {α : Type} (le : α → α → Bool) (a x : α) (l : List α) :
    x ∈ sortInsert le a l ↔ x = a ∨ x ∈ l := by
  induction l with
  | nil => simp [sortInsert]
  | cons b t ih =>
    by_cases h : le a b = true
    · simp [sortInsert, h]
    · simp only [sortInsert, if_neg h, List.mem_cons, ih]
      tauto

theorem mem_sortByComparator {α : Type} (le : α → α → Bool) (x : α) (l : List α) :
    x ∈ sortByComparator le l ↔ x ∈ l := by
  induction l with
  | nil => simp [sortByComparator]
  | cons a t ih =>
    simp only [sortByComparator, mem_sortInsert, List.mem_cons, ih]

theorem pairwise_sortInsert {α : Type} (le : α → α → Bool) (P : α → Prop)
    (total : ∀ x y, P x → P y → le x y = true ∨ le y x = true)
    (trans : ∀ x y z, P x → P y → P z → le x y = true → le y z = true → le x z = true)
    (a : α) (l : List α) (hPa : P a) (hPl : ∀ x ∈ l, P x)
    (hl : l.Pairwise (fun x y => le x y = true)) :
    (sortInsert le a l).Pairwise (fun x y => le x y = true) := by
  induction l with
  | nil => simp [sortInsert]
  | cons b t ih =>
    have hPb := hPl b (List.mem_cons_self b t)
    have hPt : ∀ x ∈ t, P x := fun x hx => hPl x (List.mem_cons_of_mem b hx)
    rcases List.pairwise_cons.mp hl with ⟨hbt, ht⟩
    by_cases h : le a b = true
    · rw [sortInsert, if_pos h]
      refine List.pairwise_cons.mpr ⟨?_, hl⟩
      intro x hx
      rcases List.mem_cons.mp hx with rfl | hxt
      · exact h
      · exact trans a b x hPa hPb (hPt x hxt) h (hbt x hxt)
    · rw [sortInsert, if_neg h]
      refine List.pairwise_cons.mpr ⟨?_, ih hPt ht⟩
      intro x hx
      rcases (mem_sortInsert le a x t).mp hx with rfl | hxt
      · rcases total x b hPa hPb with hc | hc
        · exact absurd hc h
        · exact hc
      · exact hbt x hxt

theorem pairwise_sortByComparator {α : Type} (le : α → α → Bool) (P : α → Prop)
    (total : ∀ x y, P x → P y → le x y = true ∨ le y x = true)
    (trans : ∀ x y z, P x → P y → P z → le x y = true → le y z = true → le x z = true)
    (l : List α) (hPl : ∀ x ∈ l, P x) :
    (sortByComparator le l).Pairwise (fun x y => le x y = true) := by
  induction l with
  | nil => simp [sortByComparator]
  | cons a t ih =>
    have hPa := hPl a (List.mem_cons_self a t)
    have hPt : ∀ x ∈ t, P x := fun x hx => hPl x (List.mem_cons_of_mem a hx)
    exact pairwise_sortInsert le P total trans a (sortByComparator le t) hPa
      (fun x hx => hPt x ((mem_sortByComparator le x t).mp hx)) (ih hPt)

theorem dedupById_sublist (seen : List String) (l : List Hit) :
    (dedupById seen l).Sublist l := by
  induction l generalizing seen with
  | nil => simp [dedupById]
  | cons h t ih =>
    by_cases hm : makeId h ∈ seen
    · rw [dedupById, if_pos hm]
      exact (ih seen).cons h
    · rw [dedupById, if_neg hm]
      exact (ih (makeId h :: seen)).cons₂ h

theorem dedupById_not_seen (seen : List String) (l : List Hit) (b : Hit)
    (hb : b ∈ dedupById seen l) : makeId b ∉ seen := by
  induction l generalizing seen with
  | nil => simp [dedupById] at hb
  | cons h t ih =>
    by_cases hm : makeId h ∈ seen
    · rw [dedupById, if_pos hm] at hb
      exact ih seen hb
    · rw [dedupById, if_neg hm] at hb
      rcases List.mem_cons.mp hb with rfl | hbt
      · exact hm
      · intro hc
        exact ih (makeId h :: seen) hbt (List.mem_cons_of_mem _ hc)

theorem dedupById_pairwise_ne (seen : List String) (l : List Hit) :
    (dedupById seen l).Pairwise (fun a b => makeId a ≠ makeId b) := by
  induction l generalizing seen with
  | nil => simp [dedupById]
  | cons h t ih =>
    by_cases hm : makeId h ∈ seen
    · rw [dedupById, if_pos hm]
      exact ih seen
    · rw [dedupById, if_neg hm]
      refine List.pairwise_cons.mpr ⟨?_, ih (makeId h :: seen)⟩
      intro b hb hc
      exact dedupById_not_seen _ _ b hb (hc ▸ List.mem_cons_self _ _)

theorem dedupById_find_first (seen : List String) (l : List Hit) (b : Hit)
    (hb : b ∈ dedupById seen l) :
    l.find? (fun x => makeId x == makeId b) = some b := by
  induction l generalizing seen with
  | nil => simp [dedupById] at hb
  | cons h t ih =>
    by_cases hm : makeId h ∈ seen
    · rw [dedupById, if_pos hm] at hb
      have hne : makeId h ≠ makeId b := by
        intro hc
        exact dedupById_not_seen seen t b hb (hc ▸ hm)
      rw [List.find?_cons_of_neg _ (by simp [hne]), ih seen hb]
    · rw [dedupById, if_neg hm] at hb
      rcases List.mem_cons.mp hb with rfl | hbt
      · rw [List.find?_cons_of_pos _ (by simp)]
      · have hne : makeId h ≠ makeId b := by
          intro hc
          exact dedupById_not_seen _ t b hbt (hc ▸ List.mem_cons_self _ _)
        rw [List.find?_cons_of_neg _ (by simp [hne]), ih (makeId h :: seen) hbt]

theorem dedupById_covers (seen : List String) (l : List Hit) (a : Hit)
    (ha : a ∈ l) :
    makeId a ∈ seen ∨ ∃ b ∈ dedupById seen l, makeId b = makeId a := by
  induction l generalizing seen with
  | nil => simp at ha
  | cons h t ih =>
    by_cases hm : makeId h ∈ seen
    · rw [dedupById, if_pos hm]
      rcases List.mem_cons.mp ha with rfl | hat
      · exact Or.inl hm
      · exact ih seen hat
    · rw [dedupById, if_neg hm]
      rcases List.mem_cons.mp ha with rfl | hat
      · exact Or.inr ⟨a, List.mem_cons_self _ _, rfl⟩
      · rcases ih (makeId h :: seen) hat with hs | ⟨b, hb, hbid⟩
        · rcases List.mem_cons.mp hs with heq | hs'
          · exact Or.inr ⟨h, List.mem_cons_self _ _, heq.symm⟩
          · exact Or.inl hs'
        · exact Or.inr ⟨b, List.mem_cons_of_mem h hb, hbid⟩

theorem makeId_eq_of_key_eq (a b : Hit) (ha : a.eventObject = none)
    (hb : b.eventObject = none) (h : a.obj.uuid = b.obj.uuid ∧ a.index = b.index
      ∧ a.instanceId = b.instanceId) : makeId a = makeId b := by
  rcases h with ⟨h1, h2, h3⟩
  simp [makeId, eventObjOf, ha, hb, h1, h2, h3]

/-- C3: the hit list built by `intersect` is sorted with event-layer
priority descending as primary key and distance ascending as secondary key,
and is deduplicated per `makeId` key — at most one hit survives per
`(object uuid, intersection index, instanceId)` key, the survivors appear
in sorted order, every surviving hit is the first hit with its key in
sorted order, and each key of the raycast output has its first occurrence
among the survivors. -/
theorem c3_sort_dedup (env : LocalEnv) (raw : List Hit)
    (hstate : ∀ x ∈ raw, (env x.obj.uuid).isSome)
    (hraw : ∀ x ∈ raw, x.eventObject = none) :
    (buildHits env raw).Pairwise (specLE env)
    ∧ ((buildHits env raw).map makeId).Nodup
    ∧ ((buildHits env raw).map (fun h => (h.obj.uuid, h.index, h.instanceId))).Nodup
    ∧ (buildHits env raw).Sublist (sortHits env raw)
    ∧ (∀ b ∈ buildHits env raw,
         (sortHits env raw).find? (fun x => makeId x == makeId b) = some b)
    ∧ (∀ a ∈ sortHits env raw,
         ∃ b, (sortHits env raw).find? (fun x => makeId x == makeId a) = some b
           ∧ b ∈ buildHits env raw) := by
  have hsortmem : ∀ x ∈ sortHits env raw, x ∈ raw :=
    fun x hx => (mem_sortByComparator (hitLE env) x raw).mp hx
  have hbuildmem : ∀ x ∈ buildHits env raw, x ∈ raw :=
    fun x hx => hsortmem x ((dedupById_sublist [] (sortHits env raw)).mem hx)
  refine ⟨?_, ?_, ?_, dedupById_sublist [] _, ?_, ?_⟩
  · -- sortedness
    have hp : (sortHits env raw).Pairwise (fun a b => hitLE env a b = true) := by
      refine pairwise_sortByComparator (hitLE env) (fun x => (env x.obj.uuid).isSome)
        ?_ ?_ raw hstate
      · intro x y hx hy
        rcases Option.isSome_iff_exists.mp hx with ⟨sx, hsx⟩
        rcases Option.isSome_iff_exists.mp hy with ⟨sy, hsy⟩
        simp only [hitLE, hsx, hsy]
        rcases lt_trichotomy sx.priority sy.priority with hc | hc | hc
        · right
          rw [if_neg (by omega), decide_eq_true_eq]
          omega
        · by_cases hd : x.distance ≤ y.distance
          · left; rw [if_pos (by omega)]; simpa
          · right; rw [if_pos (by omega), decide_eq_true_eq]; omega
        · left
          rw [if_neg (by omega), decide_eq_true_eq]
          omega
      · intro x y z hx hy hz hxy hyz
        rcases Option.isSome_iff_exists.mp hx with ⟨sx, hsx⟩
        rcases Option.isSome_iff_exists.mp hy with ⟨sy, hsy⟩
        rcases Option.isSome_iff_exists.mp hz with ⟨sz, hsz⟩
        simp only [hitLE, hsx, hsy, hsz] at hxy hyz ⊢
        by_cases h1 : sy.priority = sx.priority <;> by_cases h2 : sz.priority = sy.priority
        · rw [if_pos h1, decide_eq_true_eq] at hxy
          rw [if_pos h2, decide_eq_true_eq] at hyz
          rw [if_pos (by omega), decide_eq_true_eq]
          omega
        · rw [if_pos h1, decide_eq_true_eq] at hxy
          rw [if_neg h2, decide_eq_true_eq] at hyz
          rw [if_neg (by omega), decide_eq_true_eq]
          omega
        · rw [if_neg h1, decide_eq_true_eq] at hxy
          rw [if_pos h2, decide_eq_true_eq] at hyz
          rw [if_neg (by omega), decide_eq_true_eq]
          omega
        · rw [if_neg h1, decide_eq_true_eq] at hxy
          rw [if_neg h2, decide_eq_true_eq] at hyz
          rw [if_neg (by omega), decide_eq_true_eq]
          omega
    have hps : (buildHits env raw).Pairwise (fun a b => hitLE env a b = true) :=
      hp.sublist (dedupById_sublist [] _)
    refine hps.imp_of_mem ?_
    intro a b hma hmb hle
    intro sa hsa sb hsb
    have hsa' : env a.obj.uuid = some sa := hsa
    have hsb' : env b.obj.uuid = some sb := hsb
    simp only [hitLE, hsa', hsb'] at hle
    by_cases h1 : sb.priority = sa.priority
    · rw [if_pos h1, decide_eq_true_eq] at hle
      right
      exact ⟨h1.symm, hle⟩
    · rw [if_neg h1, decide_eq_true_eq] at hle
      left
      exact hle
  · exact (dedupById_pairwise_ne [] _).map makeId (fun a b h => h)
  · refine List.Pairwise.map _ (fun a b h => h) ?_
    refine (dedupById_pairwise_ne [] _).imp_of_mem ?_
    intro a b hma hmb hne hkey
    exact hne (makeId_eq_of_key_eq a b (hraw a (hbuildmem a hma)) (hraw b (hbuildmem b hmb))
      (by simpa [Prod.ext_iff] using hkey))
  · intro b hb
    exact dedupById_find_first [] _ b hb
  · intro a ha
    rcases dedupById_covers [] (sortHits env raw) a ha with hc | ⟨b, hb, hbid⟩
    · simp at hc
    · refine ⟨b, ?_, hb⟩
      rw [show makeId a = makeId b from hbid.symm]
      exact dedupById_find_first [] _ b hb

/-- Concrete input for the C3 witness: two hits on distinct objects in
layers of different priority; the lower-priority layer's hit is nearer. -/
def envC3 : LocalEnv := fun u =>
  if u = 1 then some ⟨{ click := true }, 1, 0⟩
  else if u = 2 then some ⟨{ click := true }, 1, 5⟩
  else none

def rawC3 : List Hit :=
  [{ obj := Object3D.root 1, distance := 1, index := some 0, instanceId := none,
     eventObject := none },
   { obj := Object3D.root 2, distance := 4, index := some 0, instanceId := none,
     eventObject := none }]

theorem c3_sort_dedup_witness :
    ((buildHits envC3 rawC3).map makeId).Nodup :=
  (c3_sort_dedup envC3 rawC3 (by decide) (by decide)).2.1

/-! ## Hover bookkeeping: `cancelPointer` (events.ts lines 337–363) -/

/-- Events fired by the event manager, in firing order. -/
inductive Fired where
  | pointerover (h : Hit)
  | pointerenter (h : Hit)
  | pointerout (h : Hit)
  | pointerleave (h : Hit)
  | handler (name : String) (eventObject : Nat)
  | missed (obj : Nat)
  | missedStream
  deriving DecidableEq, Repr

/-- The match test of `cancelPointer`:
`hit.object === hoveredObj.object && hit.index === hoveredObj.index &&
hit.instanceId === hoveredObj.instanceId`. -/
def hitMatches (hov : Hit) (hit : Hit) : Bool :=
  hit.obj.uuid == hov.obj.uuid && hit.index == hov.index
    && hit.instanceId == hov.instanceId

/-- The out/leave notifications for an evicted hovered entry:
`getLocalState(hoveredObj.eventObject)` must exist with a truthy
`eventCount`; each of `pointerout`/`pointerleave` fires only if registered. -/
def hoverOutFires (env : LocalEnv) (h : Hit) : List Fired :=
  match h.eventObject.bind env with
  | some inst =>
    if inst.eventCount ≠ 0 then
      (if inst.handlers.pointerout then [Fired.pointerout h] else [])
        ++ (if inst.handlers.pointerleave then [Fired.pointerleave h] else [])
    else []
  | none => []

/-- `cancelPointer(intersections)`: every hovered entry not matched by a
current intersection is deleted from the hovered map and receives
`pointerout` then `pointerleave`; matched entries are kept.  Returns the
surviving hovered entries (in order) and the fired events (in order). -/
def cancelPointer (env : LocalEnv) (is : List Hit) :
    List Hit → List Hit × List Fired
  | [] => ([], [])
  | h :: rest =>
    if is.isEmpty || !(is.any (hitMatches h)) then
      ((cancelPointer env is rest).1,
       hoverOutFires env h ++ (cancelPointer env is rest).2)
    else
      (h :: (cancelPointer env is rest).1, (cancelPointer env is rest).2)

theorem cancelPointer_cond (is : List Hit) (h : Hit) :
    (is.isEmpty || !(is.any (hitMatches h))) = !(is.any (hitMatches h)) := by
  cases is <;> simp

theorem cancelPointer_kept (env : LocalEnv) (is : List Hit) (l : List Hit) :
    (cancelPointer env is l).1 = l.filter (fun h => is.any (hitMatches h)) := by
  induction l with
  | nil => rfl
  | cons h t ih =>
    simp only [cancelPointer, cancelPointer_cond, List.filter_cons]
    cases hm : is.any (hitMatches h) <;> simp [ih]

theorem cancelPointer_fires (env : LocalEnv) (is : List Hit) (l : List Hit) :
    (cancelPointer env is l).2
      = l.flatMap (fun h =>
          if is.any (hitMatches h) then [] else hoverOutFires env h) := by
  induction l with
  | nil => rfl
  | cons h t ih =>
    simp only [cancelPointer, cancelPointer_cond, List.flatMap_cons]
    cases hm : is.any (hitMatches h) <;> simp [ih]

theorem mem_hoverOutFires (env : LocalEnv) (h' : Hit) (x : Fired)
    (hx : x ∈ hoverOutFires env h') :
    x = Fired.pointerout h' ∨ x = Fired.pointerleave h' := by
  unfold hoverOutFires at hx
  cases hb : h'.eventObject.bind env with
  | none => rw [hb] at hx; simp at hx
  | some inst =>
    rw [hb] at hx
    by_cases he : inst.eventCount = 0 <;>
      by_cases ho : inst.handlers.pointerout = true <;>
        by_cases hl : inst.handlers.pointerleave = true <;>
          simp [he, ho, hl] at hx <;> tauto

theorem hoverOutFires_out_inj (env : LocalEnv) (is : List Hit) (h h' : Hit)
    (hx : Fired.pointerout h
      ∈ (if is.any (hitMatches h') then [] else hoverOutFires env h')) :
    h' = h := by
  by_cases hm : is.any (hitMatches h') = true
  · rw [if_pos hm] at hx; simp at hx
  · rw [if_neg hm] at hx
    rcases mem_hoverOutFires env h' _ hx with he | he
    · injection he with heq; exact heq.symm
    · simp at he

theorem hoverOutFires_leave_inj (env : LocalEnv) (is : List Hit) (h h' : Hit)
    (hx : Fired.pointerleave h
      ∈ (if is.any (hitMatches h') then [] else hoverOutFires env h')) :
    h' = h := by
  by_cases hm : is.any (hitMatches h') = true
  · rw [if_pos hm] at hx; simp at hx
  · rw [if_neg hm] at hx
    rcases mem_hoverOutFires env h' _ hx with he | he
    · simp at he
    · injection he with heq; exact heq.symm

theorem count_fired_cancelPointer (env : LocalEnv) (is : List Hit) (l : List Hit)
    (h : Hit) (x : Fired)
    (hx : ∀ h', x ∈ (if is.any (hitMatches h') then []
                      else hoverOutFires env h') → h' = h) :
    (cancelPointer env is l).2.count x
      = l.count h
          * ((if is.any (hitMatches h) then [] else hoverOutFires env h).count x) := by
  induction l with
  | nil => simp [cancelPointer]
  | cons h' t ih =>
    rw [cancelPointer_fires, List.flatMap_cons, List.count_append,
      ← cancelPointer_fires env is t, ih, List.count_cons]
    by_cases hh : h' = h
    · subst hh
      rw [beq_self_eq_true, if_pos rfl, Nat.add_mul, Nat.one_mul, Nat.add_comm]
    · have hz : x ∉ (if is.any (hitMatches h') then [] else hoverOutFires env h') :=
        fun hc => hh (hx h' hc)
      have hb : (h' == h) = false := by
        simp only [beq_eq_false_iff_ne, ne_eq]
        exact hh
      rw [List.count_eq_zero.mpr hz, hb, if_neg Bool.false_ne_true,
        Nat.add_zero, Nat.zero_add]

theorem infix_fired_cancelPointer (env : LocalEnv) (is : List Hit) (l : List Hit)
    (h : Hit) (hmem : h ∈ l) (hgone : is.any (hitMatches h) = false) :
    (hoverOutFires env h).IsInfix (cancelPointer env is l).2 := by
  induction l with
  | nil => simp at hmem
  | cons h' t ih =>
    rcases List.mem_cons.mp hmem with rfl | hmt
    · rw [cancelPointer, cancelPointer_cond, hgone]
      simp only [Bool.not_false, if_true]
      exact ⟨[], (cancelPointer env is t).2, rfl⟩
    · by_cases hm : is.any (hitMatches h') = true
      · rw [cancelPointer, cancelPointer_cond, hm]
        simp only [Bool.not_true, Bool.false_eq_true, if_false]
        exact ih hmt
      · have hm' : is.any (hitMatches h') = false := by simpa using hm
        rw [cancelPointer, cancelPointer_cond, hm']
        simp only [Bool.not_false, if_true]
        rcases ih hmt with ⟨s, t', hst⟩
        exact ⟨hoverOutFires env h' ++ s, t', by rw [← hst]; simp⟩

/-- C4: on a `pointermove`, every hovered entry whose
`(object, index, instanceId)` no longer matches a current hit is evicted
from the hovered map (nothing with that key survives `cancelPointer`), and
— when its `eventObject`'s local state has `eventCount > 0` and both
handlers registered — its `pointerout` handler fires exactly once,
immediately followed by its `pointerleave` handler exactly once; an entry
whose `eventObject` has no registered state fires nothing and is still
evicted. -/
theorem c4_hover_eviction (env : LocalEnv) (is : List Hit) (hovered : List Hit)
    (h : Hit) (hmem : h ∈ hovered) (hcount : hovered.count h = 1)
    (hgone : is.any (hitMatches h) = false) :
    (∀ h' ∈ (cancelPointer env is hovered).1,
       ¬(h'.obj.uuid = h.obj.uuid ∧ h'.index = h.index ∧ h'.instanceId = h.instanceId))
    ∧ (∀ inst, h.eventObject.bind env = some inst → inst.eventCount ≠ 0 →
        inst.handlers.pointerout = true → inst.handlers.pointerleave = true →
        (cancelPointer env is hovered).2.count (Fired.pointerout h) = 1
        ∧ (cancelPointer env is hovered).2.count (Fired.pointerleave h) = 1
        ∧ [Fired.pointerout h, Fired.pointerleave h].IsInfix
            (cancelPointer env is hovered).2)
    ∧ (h.eventObject.bind env = none →
        (cancelPointer env is hovered).2.count (Fired.pointerout h) = 0
        ∧ (cancelPointer env is hovered).2.count (Fired.pointerleave h) = 0) := by
  have hkey : ∀ h' : Hit, h'.obj.uuid = h.obj.uuid → h'.index = h.index →
      h'.instanceId = h.instanceId →
      ∀ hit : Hit, hitMatches h' hit = hitMatches h hit := by
    intro h' h1 h2 h3 hit
    simp [hitMatches, h1, h2, h3]
  refine ⟨?_, ?_, ?_⟩
  · intro h' hmem' htrip
    rcases htrip with ⟨h1, h2, h3⟩
    rw [cancelPointer_kept] at hmem'
    rcases List.mem_filter.mp hmem' with ⟨_, hany⟩
    have hfun : hitMatches h' = hitMatches h := funext (hkey h' h1 h2 h3)
    rw [hfun, hgone] at hany
    exact Bool.false_ne_true hany
  · intro inst hinst hec hout hleave
    have hfires : hoverOutFires env h = [Fired.pointerout h, Fired.pointerleave h] := by
      simp [hoverOutFires, hinst, hec, hout, hleave]
    refine ⟨?_, ?_, ?_⟩
    · rw [count_fired_cancelPointer env is hovered h _
        (fun h' hx => hoverOutFires_out_inj env is h h' hx), hcount, Nat.one_mul,
        if_neg (by simp [hgone]), hfires]
      simp [List.count_cons]
    · rw [count_fired_cancelPointer env is hovered h _
        (fun h' hx => hoverOutFires_leave_inj env is h h' hx), hcount, Nat.one_mul,
        if_neg (by simp [hgone]), hfires]
      simp [List.count_cons]
    · rw [← hfires]
      exact infix_fired_cancelPointer env is hovered h hmem hgone
  · intro hnone
    have hz : hoverOutFires env h = [] := by simp [hoverOutFires, hnone]
    constructor
    · rw [count_fired_cancelPointer env is hovered h _
        (fun h' hx => hoverOutFires_out_inj env is h h' hx), hcount, Nat.one_mul,
        if_neg (by simp [hgone]), hz]
      rfl
    · rw [count_fired_cancelPointer env is hovered h _
        (fun h' hx => hoverOutFires_leave_inj env is h h' hx), hcount, Nat.one_mul,
        if_neg (by simp [hgone]), hz]
      rfl

/-- Concrete input for the C4 witness: object 4 is hovered (with out/leave
handlers) but the new move hits only object 5. -/
def envC4 : LocalEnv := fun u =>
  if u = 4 then some ⟨{ pointerout := true, pointerleave := true }, 2, 0⟩
  else if u = 5 then some ⟨{ pointerover := true }, 1, 0⟩
  else none

def hovC4 : Hit :=
  { obj := Object3D.root 4, distance := 2, index := some 0, instanceId := none,
    eventObject := some 4 }

def hitC4 : Hit :=
  { obj := Object3D.root 5, distance := 1, index := some 0, instanceId := none,
    eventObject := some 5 }

theorem c4_hover_eviction_witness :
    (cancelPointer envC4 [hitC4] [hovC4]).2.count (Fired.pointerout hovC4) = 1 :=
  ((c4_hover_eviction envC4 [hitC4] [hovC4] hovC4 (by decide) (by decide)
    (by decide)).2.1 ⟨{ pointerout := true, pointerleave := true }, 2, 0⟩
    (by decide) (by decide) (by decide) (by decide)).1

/-! ## Click events and the drag threshold (`handleEvent`, events.ts 398–501) -/

/-- Floor square root by bounded search (kernel-reducible). -/
def floorSqrt (n : Nat) : Nat :=
  (((List.range (n + 1)).filter (fun r => r * r ≤ n)).getLast?).getD 0

/-- `Math.round(Math.sqrt(n))` on an exact natural number: the nearest
integer to `√n` (JS floats carry this computation exactly for the small
integer inputs involved): round up exactly when `n ≥ r² + r + 1`,
i.e. when `√n ≥ r + 1/2`. -/
def roundSqrt (n : Nat) : Nat :=
  let r := floorSqrt n
  if r * r + r + 1 ≤ n then r + 1 else r

/-- `calculateDistance` (events.ts lines 135–140): the rounded straight-line
displacement between the event position and `internal.initialClick`. -/
def calculateDistance (offsetX offsetY : Int) (initialClick : Int × Int) : Nat :=
  roundSqrt ((offsetX - initialClick.1) * (offsetX - initialClick.1)
    + (offsetY - initialClick.2) * (offsetY - initialClick.2)).toNat

/-- `pointerMissed(event, objects)` (events.ts lines 365–370): invoke the
`pointermissed` handler of every listed object that registered one. -/
def pointerMissedF (env : LocalEnv) (objects : List Nat) : List Fired :=
  objects.flatMap (fun o =>
    match env o with
    | some inst => if inst.handlers.pointermissed then [Fired.missed o] else []
    | none => [])

/-- `handlers[name]` for the click-class events. -/
def hasHandler (h : NgtHandlers) (name : String) : Bool :=
  if name = "click" then h.click
  else if name = "contextmenu" then h.contextmenu
  else if name = "dblclick" then h.dblclick
  else false

/-- The non-pointermove branch of `onIntersect` (events.ts lines 473–497)
for a click-class event `name`: objects without `eventCount` are skipped;
a registered handler fires (preceded by `pointerMissed` to the non-initial
interaction objects) only when the `eventObject` is among `initialHits`;
without a handler, an initial hit still triggers the missed notification. -/
def onIntersectClick (env : LocalEnv) (interaction initialHits : List Nat)
    (name : String) (d : Hit) : List Fired :=
  match env (eventObjOf d) with
  | none => []
  | some inst =>
    if inst.eventCount = 0 then []
    else if hasHandler inst.handlers name then
      if initialHits.contains (eventObjOf d) then
        pointerMissedF env (interaction.filter (fun o => !(initialHits.contains o)))
          ++ [Fired.handler name (eventObjOf d)]
      else []
    else
      if initialHits.contains (eventObjOf d) then
        pointerMissedF env (interaction.filter (fun o => !(initialHits.contains o)))
      else []

/-- The click-class path of `handleEvent` (events.ts lines 406–501): compute
`delta`, send the miss notifications when a click yields no hits and the
displacement is within the 2px threshold, then dispatch the hits through
`handleIntersects` with the click branch of `onIntersect`. -/
def handleClickEvent (env : LocalEnv) (cm : CapturedMap) (pid : Option Nat)
    (stops : Hit → Bool) (name : String) (interaction initialHits : List Nat)
    (hits : List Hit) (offsetX offsetY : Int) (initialClick : Int × Int) :
    List Fired :=
  let delta := calculateDistance offsetX offsetY initialClick
  (if hits.isEmpty then
     (if delta ≤ 2 then pointerMissedF env interaction ++ [Fired.missedStream]
      else [])
   else [])
    ++ (dispatchRun cm pid stops hits).1.flatMap
         (onIntersectClick env interaction initialHits name)

def envC5 : LocalEnv := fun u =>
  if u = 1 then some ⟨{ click := true }, 1, 0⟩ else none

def hitC5 : Hit :=
  { obj := Object3D.root 1, distance := 0, index := none, instanceId := none,
    eventObject := some 1 }

/-- C5 counterexample: a click whose displacement since pointerdown is 5px
(past the 2px drag threshold) that still hits the initially-hit object 1
*does* fire object 1's click handler — `handleEvent` never consults `delta`
on the hit-dispatch path, contradicting the claim that an over-threshold
click fires no handler. -/
theorem c5_counterexample :
    2 < calculateDistance 3 4 (0, 0)
    ∧ Fired.handler "click" 1
        ∈ handleClickEvent envC5 [] none (fun _ => false) "click" [1] [1] [hitC5]
            3 4 (0, 0) := by
  decide

theorem mem_pointerMissedF (env : LocalEnv) (objects : List Nat) (o : Nat)
    (ho : o ∈ objects) (inst : NgtLocalState) (hi : env o = some inst)
    (hm : inst.handlers.pointermissed = true) :
    Fired.missed o ∈ pointerMissedF env objects := by
  refine List.mem_flatMap.mpr ⟨o, ho, ?_⟩
  simp [hi, hm]

/-- C5 (amended): the drag threshold gates only the missed notification of
clicks that hit nothing: an over-threshold click/contextmenu/dblclick that
hits nothing fires no handler and sends no missed notification; a
within-threshold click that hits nothing notifies (in list order) every
interaction object with a registered `pointermissed` handler and then the
missed stream; and when the click hits objects, dispatch proceeds
independently of the pointer displacement — handlers of initially-hit
eventObjects fire even past the threshold. -/
theorem c5_click_threshold (env : LocalEnv) (cm : CapturedMap) (pid : Option Nat)
    (stops : Hit → Bool) (name : String) (interaction initialHits : List Nat)
    (hits : List Hit) (ox oy : Int) (ic : Int × Int) :
    (hits = [] → 2 < calculateDistance ox oy ic →
       handleClickEvent env cm pid stops name interaction initialHits hits ox oy ic
         = [])
    ∧ (hits = [] → calculateDistance ox oy ic ≤ 2 →
       handleClickEvent env cm pid stops name interaction initialHits hits ox oy ic
           = pointerMissedF env interaction ++ [Fired.missedStream]
         ∧ (∀ o ∈ interaction, ∀ inst, env o = some inst →
             inst.handlers.pointermissed = true →
             Fired.missed o ∈ handleClickEvent env cm pid stops name interaction
               initialHits hits ox oy ic))
    ∧ (hits ≠ [] → ∀ (ox' oy' : Int) (ic' : Int × Int),
       handleClickEvent env cm pid stops name interaction initialHits hits ox oy ic
         = handleClickEvent env cm pid stops name interaction initialHits hits
             ox' oy' ic') := by
  refine ⟨?_, ?_, ?_⟩
  · intro hnil hdelta
    subst hnil
    simp [handleClickEvent, dispatchRun, Nat.not_le.mpr hdelta]
  · intro hnil hdelta
    subst hnil
    constructor
    · simp [handleClickEvent, dispatchRun, hdelta]
    · intro o ho inst hi hm
      simp only [handleClickEvent, dispatchRun, List.isEmpty_nil, if_true, if_pos hdelta]
      exact List.mem_append.mpr (Or.inl (List.mem_append.mpr
        (Or.inl (mem_pointerMissedF env interaction o ho inst hi hm))))
  · intro hne ox' oy' ic'
    have : hits.isEmpty = false := by
      cases hits with
      | nil => exact absurd rfl hne
      | cons a t => rfl
    simp [handleClickEvent, this]

def envC5b : LocalEnv := fun u =>
  if u = 3 then some ⟨{ pointermissed := true }, 1, 0⟩ else none

theorem c5_click_threshold_witness :
    handleClickEvent envC5b [] none (fun _ => false) "click" [3] [] [] 0 0 (0, 0)
      = pointerMissedF envC5b [3] ++ [Fired.missedStream] :=
  ((c5_click_threshold envC5b [] none (fun _ => false) "click" [3] [] [] 0 0
    (0, 0)).2.1 rfl (by decide)).1

/-! ## Deferred capture loss (`handlePointer` for `lostpointercapture`,
events.ts lines 378–394) -/

theorem lookup_eq_none_of_keys {α : Type} (k : Nat) (l : List (Nat × α))
    (h : ∀ c ∈ l, c.1 ≠ k) : l.lookup k = none := by
  induction l with
  | nil => rfl
  | cons e t ih =>
    obtain ⟨k', v⟩ := e
    have hk : k' ≠ k := h (k', v) (List.mem_cons_self _ _)
    have hb : (k == k') = false := beq_eq_false_iff_ne.mpr (Ne.symm hk)
    rw [List.lookup_cons, hb]
    exact ih (fun c hc => h c (List.mem_cons_of_mem _ hc))

theorem lookup_alDelete {α : Type} (k : Nat) (l : List (Nat × α)) :
    (alDelete k l).lookup k = none :=
  lookup_eq_none_of_keys k _ (fun c hc => by
    simpa using (List.mem_filter.mp hc).2)

theorem cancelPointer_nil_clears (env : LocalEnv) (hov : List Hit) :
    (cancelPointer env [] hov).1 = [] := by
  rw [cancelPointer_kept]
  simp

/-- The event-manager state touched by the `lostpointercapture` handler:
the captured map, the hovered map, and the pointerIds whose deferred
release callback has been queued with `requestAnimationFrame`. -/
structure LostCaptureState where
  capturedMap : CapturedMap
  hovered : List Hit
  scheduled : List Nat
  deriving Repr

/-- The synchronous `lostpointercapture` handler (events.ts lines 379–394):
when the event carries a `pointerId` present in `capturedMap`, it only
schedules a callback for the next animation frame; it performs no release
of its own. -/
def handleLostPointerCapture (pid : Option Nat) (s : LostCaptureState) :
    LostCaptureState :=
  match pid with
  | some p =>
    if (s.capturedMap.lookup p).isSome then
      { s with scheduled := s.scheduled ++ [p] }
    else s
  | none => s

/-- The deferred callback (events.ts lines 386–392): only if the pointerId
is *still* captured (pointer-up handling may have released it meanwhile)
delete it from `capturedMap` and clear the hover state via
`cancelPointer([])`. -/
def runDeferredRelease (env : LocalEnv) (p : Nat) (s : LostCaptureState) :
    LostCaptureState :=
  if (s.capturedMap.lookup p).isSome then
    { s with capturedMap := alDelete p s.capturedMap,
             hovered := (cancelPointer env [] s.hovered).1 }
  else s

/-- C6: handling `lostpointercapture` for a captured pointerId never
releases the capture record synchronously — the synchronous handler leaves
`capturedMap` (and `hovered`) untouched and only queues the release for the
next animation frame — so the record is still present for an intervening
`pointerup`; the deferred callback deletes the pointerId and clears the
hover state only when the pointerId is still present, and is a no-op when
pointer-up handling already released it. -/
theorem c6_lost_capture_deferred (env : LocalEnv) (p : Nat) (s : LostCaptureState) :
    (handleLostPointerCapture (some p) s).capturedMap = s.capturedMap
    ∧ (handleLostPointerCapture (some p) s).hovered = s.hovered
    ∧ ((s.capturedMap.lookup p).isSome →
        (handleLostPointerCapture (some p) s).scheduled = s.scheduled ++ [p])
    ∧ (s.capturedMap.lookup p = none → handleLostPointerCapture (some p) s = s)
    ∧ (s.capturedMap.lookup p = none → runDeferredRelease env p s = s)
    ∧ ((s.capturedMap.lookup p).isSome →
        (runDeferredRelease env p s).capturedMap.lookup p = none
        ∧ (runDeferredRelease env p s).hovered = []) := by
  refine ⟨?_, ?_, ?_, ?_, ?_, ?_⟩
  · unfold handleLostPointerCapture
    by_cases h : (s.capturedMap.lookup p).isSome <;> simp [h]
  · unfold handleLostPointerCapture
    by_cases h : (s.capturedMap.lookup p).isSome <;> simp [h]
  · intro h
    unfold handleLostPointerCapture
    simp [h]
  · intro h
    unfold handleLostPointerCapture
    simp [h]
  · intro h
    unfold runDeferredRelease
    simp [h]
  · intro h
    unfold runDeferredRelease
    rw [if_pos h]
    exact ⟨lookup_alDelete p s.capturedMap, cancelPointer_nil_clears env s.hovered⟩

def stateC6 : LostCaptureState :=
  { capturedMap := capMapW, hovered := [hovC4], scheduled := [] }

theorem c6_lost_capture_deferred_witness :
    (runDeferredRelease envC4 7 stateC6).capturedMap.lookup 7 = none :=
  ((c6_lost_capture_deferred envC4 7 stateC6).2.2.2.2.2 (by decide)).1

/-! ## `removeInteractivity` and `releaseInternalPointerCapture`
(events.ts lines 100–131) -/

/-- Calls into the platform pointer-capture API
(`element.setPointerCapture` / `element.releasePointerCapture`). -/
inductive PlatformCall where
  | setPointerCapture (target : Nat) (pointerId : Nat)
  | releasePointerCapture (target : Nat) (pointerId : Nat)
  deriving DecidableEq, Repr

/-- `releaseInternalPointerCapture` (events.ts lines 100–115) acting on one
inner capture map: when `obj` holds a capture it is deleted; when it was
the last capturing object, the whole pointerId entry is removed from the
outer map (signalled here by `none`) and the platform target's
`releasePointerCapture(pointerId)` is invoked. -/
def releaseInternalPointerCapture (caps : List (Nat × NgtPointerCaptureTarget))
    (obj : Nat) (pid : Nat) :
    Option (List (Nat × NgtPointerCaptureTarget)) × List PlatformCall :=
  match caps.lookup obj with
  | some captureData =>
    if (alDelete obj caps).isEmpty then
      (none, [PlatformCall.releasePointerCapture captureData.target pid])
    else (some (alDelete obj caps), [])
  | none => (some caps, [])

/-- The `capturedMap.forEach` pass of `removeInteractivity` (events.ts
lines 128–130): run `releaseInternalPointerCapture` for `obj` on every
pointerId entry, in iteration order, dropping the entries whose inner map
it emptied. -/
def removeObjectCaptures (cm : CapturedMap) (obj : Nat) :
    CapturedMap × List PlatformCall :=
  match cm with
  | [] => ([], [])
  | e :: t =>
    match (releaseInternalPointerCapture e.2 obj e.1).1 with
    | none =>
      ((removeObjectCaptures t obj).1,
       (releaseInternalPointerCapture e.2 obj e.1).2
         ++ (removeObjectCaptures t obj).2)
    | some caps' =>
      ((e.1, caps') :: (removeObjectCaptures t obj).1,
       (releaseInternalPointerCapture e.2 obj e.1).2
         ++ (removeObjectCaptures t obj).2)

/-- The `internal` store slice that `removeInteractivity` mutates. -/
structure NgtInternal where
  interaction : List Nat
  initialHits : List Nat
  hovered : List Hit
  capturedMap : CapturedMap
  deriving Repr

/-- `removeInteractivity(store, object)` (events.ts lines 117–131): filter
the object out of `interaction` and `initialHits`, delete every hovered
entry whose `eventObject` or `object` is it, and release its pointer
captures for every pointerId. -/
def removeInteractivity (internal : NgtInternal) (obj : Nat) :
    NgtInternal × List PlatformCall :=
  ({ interaction := internal.interaction.filter (fun o => o ≠ obj),
     initialHits := internal.initialHits.filter (fun o => o ≠ obj),
     hovered := internal.hovered.filter
       (fun h => !(h.eventObject == some obj || h.obj.uuid == obj)),
     capturedMap := (removeObjectCaptures internal.capturedMap obj).1 },
   (removeObjectCaptures internal.capturedMap obj).2)

theorem lookup_none_keys {α : Type} (k : Nat) (l : List (Nat × α))
    (h : l.lookup k = none) : ∀ c ∈ l, c.1 ≠ k := by
  induction l with
  | nil => simp
  | cons e t ih =>
    obtain ⟨k', v⟩ := e
    by_cases he : k' = k
    · subst he
      rw [List.lookup_cons, beq_self_eq_true] at h
      simp at h
    · have hb : (k == k') = false := beq_eq_false_iff_ne.mpr (Ne.symm he)
      rw [List.lookup_cons, hb] at h
      intro c hc
      rcases List.mem_cons.mp hc with rfl | hct
      · exact he
      · exact ih h c hct

/-- Case analysis of `releaseInternalPointerCapture`: no capture held by
`obj`, last capture held by `obj` (platform release fired), or one of
several captures (silent removal). -/
theorem releaseInternal_cases (caps : List (Nat × NgtPointerCaptureTarget))
    (obj pid : Nat) :
    (caps.lookup obj = none
      ∧ releaseInternalPointerCapture caps obj pid = (some caps, []))
    ∨ (∃ cd, caps.lookup obj = some cd ∧ (alDelete obj caps).isEmpty = true
        ∧ releaseInternalPointerCapture caps obj pid
            = (none, [PlatformCall.releasePointerCapture cd.target pid]))
    ∨ (∃ cd, caps.lookup obj = some cd ∧ (alDelete obj caps).isEmpty = false
        ∧ releaseInternalPointerCapture caps obj pid
            = (some (alDelete obj caps), [])) := by
  unfold releaseInternalPointerCapture
  split
  next cd hl =>
    split
    next hemp => exact Or.inr (Or.inl ⟨cd, hl, hemp, rfl⟩)
    next hemp => exact Or.inr (Or.inr ⟨cd, hl, Bool.eq_false_iff.mpr hemp, rfl⟩)
  next hl => exact Or.inl ⟨hl, rfl⟩

theorem releaseInternal_no_obj (caps : List (Nat × NgtPointerCaptureTarget))
    (obj pid : Nat) (caps' : List (Nat × NgtPointerCaptureTarget))
    (h : (releaseInternalPointerCapture caps obj pid).1 = some caps') :
    ∀ c ∈ caps', c.1 ≠ obj := by
  rcases releaseInternal_cases caps obj pid with ⟨hl, heq⟩ | ⟨cd, hl, hemp, heq⟩
    | ⟨cd, hl, hemp, heq⟩
  · rw [heq] at h
    simp only [Option.some.injEq] at h
    subst h
    exact lookup_none_keys obj caps hl
  · rw [heq] at h
    simp at h
  · rw [heq] at h
    simp only [Option.some.injEq] at h
    subst h
    intro c hc
    simpa using (List.mem_filter.mp hc).2

theorem removeObjectCaptures_no_obj (cm : CapturedMap) (obj : Nat) :
    ∀ e ∈ (removeObjectCaptures cm obj).1, ∀ c ∈ e.2, c.1 ≠ obj := by
  induction cm with
  | nil => simp [removeObjectCaptures]
  | cons entry t ih =>
    intro e he c hc
    rw [removeObjectCaptures] at he
    cases hrel : (releaseInternalPointerCapture entry.2 obj entry.1).1 with
    | none =>
      rw [hrel] at he
      exact ih e he c hc
    | some caps' =>
      rw [hrel] at he
      rcases List.mem_cons.mp he with rfl | het
      · exact releaseInternal_no_obj entry.2 obj entry.1 caps' hrel c hc
      · exact ih e het c hc

theorem removeObjectCaptures_preserve (cm : CapturedMap) (obj : Nat) :
    ∀ e ∈ cm, ∀ c ∈ e.2, c.1 ≠ obj →
      ∃ caps', (e.1, caps') ∈ (removeObjectCaptures cm obj).1 ∧ c ∈ caps' := by
  induction cm with
  | nil => simp
  | cons entry t ih =>
    intro e he c hc hne
    rcases List.mem_cons.mp he with rfl | het
    · rcases releaseInternal_cases e.2 obj e.1 with ⟨hl, heq⟩ | ⟨cd, hl, hemp, heq⟩
        | ⟨cd, hl, hemp, heq⟩
      · refine ⟨e.2, ?_, hc⟩
        rw [removeObjectCaptures]
        have h1 : (releaseInternalPointerCapture e.2 obj e.1).1 = some e.2 := by
          rw [heq]
        rw [h1]
        exact List.mem_cons_self _ _
      · -- the "last capturer" branch needs the filtered inner map empty,
        -- but `c` (with key ≠ obj) survives the filter
        exfalso
        have hcmem : c ∈ alDelete obj e.2 :=
          List.mem_filter.mpr ⟨hc, by simpa using hne⟩
        rw [List.isEmpty_iff] at hemp
        rw [hemp] at hcmem
        simp at hcmem
      · refine ⟨alDelete obj e.2, ?_, List.mem_filter.mpr ⟨hc, by simpa using hne⟩⟩
        rw [removeObjectCaptures]
        have h1 : (releaseInternalPointerCapture e.2 obj e.1).1
            = some (alDelete obj e.2) := by
          rw [heq]
        rw [h1]
        exact List.mem_cons_self _ _
    · rcases ih e het c hc hne with ⟨caps', hmem, hcm⟩
      refine ⟨caps', ?_, hcm⟩
      rw [removeObjectCaptures]
      cases hrel : (releaseInternalPointerCapture entry.2 obj entry.1).1 with
      | none => exact hmem
      | some capsh => exact List.mem_cons_of_mem _ hmem

/-- C7: after `removeInteractivity(store, object)` the object appears
nowhere in the internal state — not in `interaction`, not in `initialHits`,
in no hovered entry (neither as `eventObject` nor as `object`), and in no
inner capture map for any pointerId — while entries belonging to other
objects survive. -/
theorem c7_remove_interactivity (internal : NgtInternal) (obj : Nat) :
    (obj ∉ (removeInteractivity internal obj).1.interaction)
    ∧ (obj ∉ (removeInteractivity internal obj).1.initialHits)
    ∧ (∀ h ∈ (removeInteractivity internal obj).1.hovered,
        h.eventObject ≠ some obj ∧ h.obj.uuid ≠ obj)
    ∧ (∀ e ∈ (removeInteractivity internal obj).1.capturedMap,
        ∀ c ∈ e.2, c.1 ≠ obj)
    ∧ (∀ o ∈ internal.interaction, o ≠ obj →
        o ∈ (removeInteractivity internal obj).1.interaction)
    ∧ (∀ o ∈ internal.initialHits, o ≠ obj →
        o ∈ (removeInteractivity internal obj).1.initialHits)
    ∧ (∀ h ∈ internal.hovered, h.eventObject ≠ some obj → h.obj.uuid ≠ obj →
        h ∈ (removeInteractivity internal obj).1.hovered)
    ∧ (∀ e ∈ internal.capturedMap, ∀ c ∈ e.2, c.1 ≠ obj →
        ∃ caps', (e.1, caps') ∈ (removeInteractivity internal obj).1.capturedMap
          ∧ c ∈ caps') := by
  refine ⟨?_, ?_, ?_, ?_, ?_, ?_, ?_, ?_⟩
  · intro hmem
    have := (List.mem_filter.mp hmem).2
    simp at this
  · intro hmem
    have := (List.mem_filter.mp hmem).2
    simp at this
  · intro h hmem
    have := (List.mem_filter.mp hmem).2
    constructor
    · intro hc
      simp [hc] at this
    · intro hc
      simp [hc] at this
  · exact removeObjectCaptures_no_obj internal.capturedMap obj
  · intro o ho hne
    exact List.mem_filter.mpr ⟨ho, by simpa using hne⟩
  · intro o ho hne
    exact List.mem_filter.mpr ⟨ho, by simpa using hne⟩
  · intro h hmem h1 h2
    refine List.mem_filter.mpr ⟨hmem, ?_⟩
    simp [h1, h2]
  · exact removeObjectCaptures_preserve internal.capturedMap obj

def internalC7 : NgtInternal :=
  { interaction := [2, 3], initialHits := [2],
    hovered := [hovC4],
    capturedMap := [(7, [(2, ⟨hitW 2, 9⟩), (3, ⟨hitW 3, 9⟩)])] }

theorem c7_remove_interactivity_witness :
    3 ∈ (removeInteractivity internalC7 2).1.interaction :=
  (c7_remove_interactivity internalC7 2).2.2.2.2.1 3 (by decide) (by decide)

/-! ## Capture bookkeeping invariant (`setPointerCapture` /
`releasePointerCapture` / `removeInteractivity`, events.ts lines 100–115,
250–271) -/

theorem alSet_ne_nil {α : Type} (k : Nat) (v : α) (l : List (Nat × α)) :
    alSet k v l ≠ [] := by
  cases l with
  | nil => simp [alSet]
  | cons e t =>
    obtain ⟨k', v'⟩ := e
    by_cases h : k' = k <;> simp [alSet, h]

theorem mem_alSet {α : Type} (k : Nat) (v : α) (l : List (Nat × α)) (e : Nat × α)
    (he : e ∈ alSet k v l) : e = (k, v) ∨ e ∈ l := by
  induction l with
  | nil => simpa [alSet] using he
  | cons f t ih =>
    obtain ⟨k', v'⟩ := f
    by_cases h : k' = k
    · rw [alSet, if_pos h] at he
      rcases List.mem_cons.mp he with rfl | ht
      · exact Or.inl rfl
      · exact Or.inr (List.mem_cons_of_mem _ ht)
    · rw [alSet, if_neg h] at he
      rcases List.mem_cons.mp he with rfl | ht
      · exact Or.inr (List.mem_cons_self _ _)
      · rcases ih ht with h1 | h1
        · exact Or.inl h1
        · exact Or.inr (List.mem_cons_of_mem _ h1)

theorem lookup_mem {κ α : Type} [BEq κ] [LawfulBEq κ] (k : κ) (l : List (κ × α))
    (v : α) (h : l.lookup k = some v) : (k, v) ∈ l := by
  induction l with
  | nil => cases h
  | cons e t ih =>
    obtain ⟨k', v'⟩ := e
    rw [List.lookup_cons] at h
    cases hb : (k == k') with
    | true =>
      rw [hb] at h
      have h' : some v' = some v := h
      injection h' with h'
      subst h'
      have hk : k = k' := eq_of_beq hb
      subst hk
      exact List.mem_cons_self _ _
    | false =>
      rw [hb] at h
      exact List.mem_cons_of_mem _ (ih h)

theorem lookup_isSome_ne_nil {κ α : Type} [BEq κ] (k : κ) (l : List (κ × α))
    (v : α) (h : l.lookup k = some v) : l ≠ [] := by
  cases l with
  | nil => cases h
  | cons e t => simp

theorem alDelete_isEmpty_iff (obj : Nat) (caps : List (Nat × NgtPointerCaptureTarget)) :
    (alDelete obj caps).isEmpty = true ↔ ∀ c ∈ caps, c.1 = obj := by
  rw [List.isEmpty_iff, alDelete, List.filter_eq_nil_iff]
  constructor
  · intro h c hc
    have := h c hc
    simpa using this
  · intro h c hc
    simpa using h c hc

theorem lookup_of_all_keys (obj : Nat) (caps : List (Nat × NgtPointerCaptureTarget))
    (hne : caps ≠ []) (hall : ∀ c ∈ caps, c.1 = obj) :
    ∃ cd, caps.lookup obj = some cd := by
  cases caps with
  | nil => exact absurd rfl hne
  | cons e t =>
    obtain ⟨k, v⟩ := e
    have hk : k = obj := hall (k, v) (List.mem_cons_self _ _)
    subst hk
    exact ⟨v, by rw [List.lookup_cons, beq_self_eq_true]⟩

/-- The capture-bookkeeping operations reachable through the event API. -/
inductive CapOp where
  | setCapture (pid : Nat) (hit : Hit) (target : Nat)
  | releaseCapture (pid : Nat) (obj : Nat)
  | removeObject (obj : Nat)
  deriving Repr

/-- One step of capture bookkeeping, returning the next `capturedMap` and
the platform calls it makes:
* `setCapture` (events.ts lines 250–264): add
  `(hit.eventObject ↦ {intersection, target})` to the pointerId's inner map
  (creating the entry when the pointerId was uncaptured) and call the
  platform `target.setPointerCapture(id)`;
* `releaseCapture` (events.ts lines 266–271): when the pointerId is
  captured, run `releaseInternalPointerCapture` for `hit.eventObject`;
* `removeObject` (events.ts lines 128–130): the capturedMap pass of
  `removeInteractivity`. -/
def capStep (cm : CapturedMap) : CapOp → CapturedMap × List PlatformCall
  | .setCapture pid hit target =>
    match cm.lookup pid with
    | some caps =>
      (alSet pid (alSet (eventObjOf hit) ⟨hit, target⟩ caps) cm,
       [PlatformCall.setPointerCapture target pid])
    | none =>
      (alSet pid [(eventObjOf hit, ⟨hit, target⟩)] cm,
       [PlatformCall.setPointerCapture target pid])
  | .releaseCapture pid obj =>
    match cm.lookup pid with
    | some caps =>
      match (releaseInternalPointerCapture caps obj pid).1 with
      | none => (alDelete pid cm, (releaseInternalPointerCapture caps obj pid).2)
      | some caps' =>
        (alSet pid caps' cm, (releaseInternalPointerCapture caps obj pid).2)
    | none => (cm, [])
  | .removeObject obj => removeObjectCaptures cm obj

/-- `capturedMap` states reachable from the empty map. -/
def runCapOps (ops : List CapOp) : CapturedMap :=
  ops.foldl (fun cm op => (capStep cm op).1) []

/-- The capture invariant: every pointerId entry holds a non-empty inner
capture map. -/
def CapInv (cm : CapturedMap) : Prop := ∀ e ∈ cm, e.2 ≠ []

theorem removeObjectCaptures_inv (cm : CapturedMap) (obj : Nat)
    (hinv : CapInv cm) : CapInv (removeObjectCaptures cm obj).1 := by
  induction cm with
  | nil => simp [removeObjectCaptures, CapInv]
  | cons entry t ih =>
    intro e he
    rw [removeObjectCaptures] at he
    rcases releaseInternal_cases entry.2 obj entry.1 with ⟨hl, heq⟩
      | ⟨cd, hl, hemp, heq⟩ | ⟨cd, hl, hemp, heq⟩
    · have h1 : (releaseInternalPointerCapture entry.2 obj entry.1).1 = some entry.2 := by
        rw [heq]
      rw [h1] at he
      rcases List.mem_cons.mp he with rfl | ht
      · exact hinv entry (List.mem_cons_self _ _)
      · exact ih (fun x hx => hinv x (List.mem_cons_of_mem _ hx)) e ht
    · have h1 : (releaseInternalPointerCapture entry.2 obj entry.1).1 = none := by
        rw [heq]
      rw [h1] at he
      exact ih (fun x hx => hinv x (List.mem_cons_of_mem _ hx)) e he
    · have h1 : (releaseInternalPointerCapture entry.2 obj entry.1).1
          = some (alDelete obj entry.2) := by
        rw [heq]
      rw [h1] at he
      rcases List.mem_cons.mp he with rfl | ht
      · intro hc
        have : (alDelete obj entry.2).isEmpty = true := by
          rw [show alDelete obj entry.2 = [] from hc]
          rfl
        rw [this] at hemp
        cases hemp
      · exact ih (fun x hx => hinv x (List.mem_cons_of_mem _ hx)) e ht

theorem releaseInternal_some_ne_nil (caps : List (Nat × NgtPointerCaptureTarget))
    (obj pid : Nat) (caps' : List (Nat × NgtPointerCaptureTarget))
    (hne : caps ≠ [])
    (h : (releaseInternalPointerCapture caps obj pid).1 = some caps') :
    caps' ≠ [] := by
  rcases releaseInternal_cases caps obj pid with ⟨hl, heq⟩ | ⟨cd, hl, hemp, heq⟩
    | ⟨cd, hl, hemp, heq⟩
  · rw [heq] at h
    simp only [Option.some.injEq] at h
    exact h ▸ hne
  · rw [heq] at h
    simp at h
  · rw [heq] at h
    simp only [Option.some.injEq] at h
    subst h
    intro hc
    rw [hc] at hemp
    simp at hemp

theorem capStep_inv (cm : CapturedMap) (op : CapOp) (hinv : CapInv cm) :
    CapInv (capStep cm op).1 := by
  cases op with
  | setCapture pid hit target =>
    intro e he
    simp only [capStep] at he
    cases hl : cm.lookup pid with
    | some caps =>
      rw [hl] at he
      rcases mem_alSet _ _ _ _ he with rfl | hm
      · exact alSet_ne_nil _ _ _
      · exact hinv e hm
    | none =>
      rw [hl] at he
      rcases mem_alSet _ _ _ _ he with rfl | hm
      · simp
      · exact hinv e hm
  | releaseCapture pid obj =>
    intro e he
    cases hl : cm.lookup pid with
    | none =>
      simp only [capStep, hl] at he
      exact hinv e he
    | some caps =>
      simp only [capStep, hl] at he
      cases hrel : (releaseInternalPointerCapture caps obj pid).1 with
      | none =>
        simp only [hrel] at he
        exact hinv e (List.mem_filter.mp he).1
      | some caps' =>
        simp only [hrel] at he
        rcases mem_alSet _ _ _ _ he with rfl | hm
        · exact releaseInternal_some_ne_nil caps obj pid caps'
            (hinv (pid, caps) (lookup_mem pid cm caps hl)) hrel
        · exact hinv e hm
  | removeObject obj => exact removeObjectCaptures_inv cm obj hinv

theorem runCapOps_inv_aux (ops : List CapOp) (cm : CapturedMap) (hinv : CapInv cm) :
    CapInv (ops.foldl (fun c op => (capStep c op).1) cm) := by
  induction ops generalizing cm with
  | nil => simpa using hinv
  | cons op t ih =>
    rw [List.foldl_cons]
    exact ih _ (capStep_inv cm op hinv)

theorem removeObjectCaptures_split (cm : CapturedMap) (obj : Nat)
    (entry : Nat × List (Nat × NgtPointerCaptureTarget)) :
    (removeObjectCaptures (entry :: cm) obj).2
      = (releaseInternalPointerCapture entry.2 obj entry.1).2
          ++ (removeObjectCaptures cm obj).2 := by
  rw [removeObjectCaptures]
  cases hrel : (releaseInternalPointerCapture entry.2 obj entry.1).1 <;> rfl

theorem removeObjectCaptures_release_char (cm : CapturedMap) (obj p : Nat) :
    (∃ t, PlatformCall.releasePointerCapture t p ∈ (removeObjectCaptures cm obj).2)
      ↔ ∃ caps, (p, caps) ∈ cm ∧ caps ≠ [] ∧ ∀ c ∈ caps, c.1 = obj := by
  induction cm with
  | nil => simp [removeObjectCaptures]
  | cons entry t ih =>
    constructor
    · rintro ⟨tg, htg⟩
      rw [removeObjectCaptures_split] at htg
      rcases List.mem_append.mp htg with hm | hm
      · rcases releaseInternal_cases entry.2 obj entry.1 with ⟨hl, heq⟩
          | ⟨cd, hl, hemp, heq⟩ | ⟨cd, hl, hemp, heq⟩
        · rw [heq] at hm
          simp at hm
        · rw [heq] at hm
          have hm' : PlatformCall.releasePointerCapture tg p
              = PlatformCall.releasePointerCapture cd.target entry.1 :=
            List.mem_singleton.mp hm
          injection hm' with h1 h2
          subst h2
          refine ⟨entry.2, ?_, lookup_isSome_ne_nil obj entry.2 cd hl,
            (alDelete_isEmpty_iff obj entry.2).mp hemp⟩
          exact List.mem_cons_self entry t
        · rw [heq] at hm
          simp at hm
      · rcases ih.mp ⟨tg, hm⟩ with ⟨caps, hmem, hne, hall⟩
        exact ⟨caps, List.mem_cons_of_mem _ hmem, hne, hall⟩
    · rintro ⟨caps, hmem, hne, hall⟩
      rcases List.mem_cons.mp hmem with heq' | hmt
      · subst heq'
        obtain ⟨cd, hcd⟩ := lookup_of_all_keys obj caps hne hall
        have hemp : (alDelete obj caps).isEmpty = true :=
          (alDelete_isEmpty_iff obj caps).mpr hall
        rcases releaseInternal_cases caps obj p with ⟨hl2, _⟩
          | ⟨cd2, hl2, hemp2, heq2⟩ | ⟨cd2, hl2, hemp2, heq2⟩
        · rw [hl2] at hcd
          cases hcd
        · refine ⟨cd2.target, ?_⟩
          rw [removeObjectCaptures_split, heq2]
          exact List.mem_append.mpr (Or.inl (List.mem_singleton.mpr rfl))
        · rw [hemp] at hemp2
          cases hemp2
      · rcases ih.mpr ⟨caps, hmt, hne, hall⟩ with ⟨tg, htg⟩
        refine ⟨tg, ?_⟩
        rw [removeObjectCaptures_split]
        exact List.mem_append.mpr (Or.inr htg)

theorem capStep_release_snd (cm : CapturedMap) (pid obj : Nat)
    (caps : List (Nat × NgtPointerCaptureTarget)) (hl : cm.lookup pid = some caps) :
    (capStep cm (CapOp.releaseCapture pid obj)).2
      = (releaseInternalPointerCapture caps obj pid).2 := by
  simp only [capStep, hl]
  cases hrel : (releaseInternalPointerCapture caps obj pid).1 <;> rfl

/-- C10: after any sequence of `setPointerCapture`, `releasePointerCapture`
and `removeInteractivity` operations starting from the empty map, every
pointerId present in `capturedMap` maps to a non-empty inner map; a
`setPointerCapture` step only calls the platform `setPointerCapture`; and
the platform `releasePointerCapture(pointerId)` is invoked exactly when the
operation removes the last capturing object of that pointerId — never while
another object still holds the capture. -/
theorem c10_capture_invariant :
    (∀ ops : List CapOp, CapInv (runCapOps ops))
    ∧ (∀ (cm : CapturedMap) (pid : Nat) (hit : Hit) (target : Nat),
        (capStep cm (CapOp.setCapture pid hit target)).2
          = [PlatformCall.setPointerCapture target pid])
    ∧ (∀ (cm : CapturedMap) (pid obj : Nat),
        (∃ t, PlatformCall.releasePointerCapture t pid
            ∈ (capStep cm (CapOp.releaseCapture pid obj)).2)
          ↔ ∃ caps, cm.lookup pid = some caps ∧ caps ≠ []
              ∧ ∀ c ∈ caps, c.1 = obj)
    ∧ (∀ (cm : CapturedMap) (obj p : Nat),
        (∃ t, PlatformCall.releasePointerCapture t p
            ∈ (capStep cm (CapOp.removeObject obj)).2)
          ↔ ∃ caps, (p, caps) ∈ cm ∧ caps ≠ [] ∧ ∀ c ∈ caps, c.1 = obj) := by
  refine ⟨?_, ?_, ?_, ?_⟩
  · intro ops
    exact runCapOps_inv_aux ops [] (by simp [CapInv])
  · intro cm pid hit target
    simp only [capStep]
    cases hl : cm.lookup pid <;> rfl
  · intro cm pid obj
    constructor
    · rintro ⟨tg, htg⟩
      cases hl : cm.lookup pid with
      | none =>
        simp only [capStep, hl] at htg
        simp at htg
      | some caps =>
        rw [capStep_release_snd cm pid obj caps hl] at htg
        rcases releaseInternal_cases caps obj pid with ⟨hl2, heq⟩
          | ⟨cd, hl2, hemp, heq⟩ | ⟨cd, hl2, hemp, heq⟩
        · rw [heq] at htg
          simp at htg
        · exact ⟨caps, rfl, lookup_isSome_ne_nil obj caps cd hl2,
            (alDelete_isEmpty_iff obj caps).mp hemp⟩
        · rw [heq] at htg
          simp at htg
    · rintro ⟨caps, hl, hne, hall⟩
      obtain ⟨cd, hcd⟩ := lookup_of_all_keys obj caps hne hall
      have hemp : (alDelete obj caps).isEmpty = true :=
        (alDelete_isEmpty_iff obj caps).mpr hall
      rcases releaseInternal_cases caps obj pid with ⟨hl2, _⟩
        | ⟨cd2, hl2, hemp2, heq2⟩ | ⟨cd2, hl2, hemp2, heq2⟩
      · rw [hl2] at hcd
        cases hcd
      · refine ⟨cd2.target, ?_⟩
        rw [capStep_release_snd cm pid obj caps hl, heq2]
        exact List.mem_singleton.mpr rfl
      · rw [hemp] at hemp2
        cases hemp2
  · intro cm obj p
    exact removeObjectCaptures_release_char cm obj p

theorem c10_capture_invariant_witness :
    CapInv (runCapOps [CapOp.setCapture 7 (hitW 2) 9, CapOp.releaseCapture 7 2]) :=
  c10_capture_invariant.1 [CapOp.setCapture 7 (hitW 2) 9, CapOp.releaseCapture 7 2]

/-! ## Physics-bridge ray registration (`injectRay`,
libs/cannon raycast, modelled from its source in this repository) -/

inductive RayMode where
  | Closest
  | Any
  | All
  deriving DecidableEq, Repr

inductive PhysicsMsg where
  | addRay (uuid : String) (mode : RayMode)
  | removeRay (uuid : String)
  deriving DecidableEq, Repr

/-- JS object property write `events[uuid] = { rayhit: callback }` on the
string-keyed events record. -/
def objSet {α : Type} (k : String) (v : α) : List (String × α) → List (String × α)
  | [] => [(k, v)]
  | (k', v') :: rest => if k' = k then (k, v) :: rest else (k', v') :: objSet k v rest

/-- `delete events[uuid]`. -/
def objDelete {α : Type} (k : String) (l : List (String × α)) : List (String × α) :=
  l.filter (fun e => e.1 ≠ k)

/-- The effect body of `injectRay`: register the callback under the
synthesized uuid and send the worker `addRay` carrying that uuid and the
chosen mode (`Closest`, `Any`, or `All`). -/
def injectRayEffect {α : Type} (mode : RayMode) (callback : α) (uuid : String)
    (events : List (String × α)) : List (String × α) × PhysicsMsg :=
  (objSet uuid callback events, PhysicsMsg.addRay uuid mode)

/-- The cleanup of `injectRay`: send the worker `removeRay` with the same
uuid and delete the events entry. -/
def injectRayCleanup {α : Type} (uuid : String) (events : List (String × α)) :
    List (String × α) × PhysicsMsg :=
  (objDelete uuid events, PhysicsMsg.removeRay uuid)

theorem lookup_objSet {α : Type} (k : String) (v : α) (l : List (String × α)) :
    (objSet k v l).lookup k = some v := by
  induction l with
  | nil => rw [objSet, List.lookup_cons, beq_self_eq_true]
  | cons e t ih =>
    obtain ⟨k', v'⟩ := e
    by_cases h : k' = k
    · rw [objSet, if_pos h, List.lookup_cons, beq_self_eq_true]
    · rw [objSet, if_neg h, List.lookup_cons,
        show (k == k') = false from beq_eq_false_iff_ne.mpr (Ne.symm h)]
      exact ih

theorem lookup_eq_none_of_keys_str {α : Type} (k : String) (l : List (String × α))
    (h : ∀ c ∈ l, c.1 ≠ k) : l.lookup k = none := by
  induction l with
  | nil => rfl
  | cons e t ih =>
    obtain ⟨k', v⟩ := e
    have hk : k' ≠ k := h (k', v) (List.mem_cons_self _ _)
    have hb : (k == k') = false := beq_eq_false_iff_ne.mpr (Ne.symm hk)
    rw [List.lookup_cons, hb]
    exact ih (fun c hc => h c (List.mem_cons_of_mem _ hc))

theorem lookup_none_keys_str {α : Type} (k : String) (l : List (String × α))
    (h : l.lookup k = none) : ∀ c ∈ l, c.1 ≠ k := by
  induction l with
  | nil => simp
  | cons e t ih =>
    obtain ⟨k', v⟩ := e
    by_cases he : k' = k
    · subst he
      rw [List.lookup_cons, beq_self_eq_true] at h
      simp at h
    · have hb : (k == k') = false := beq_eq_false_iff_ne.mpr (Ne.symm he)
      rw [List.lookup_cons, hb] at h
      intro c hc
      rcases List.mem_cons.mp hc with rfl | hct
      · exact he
      · exact ih h c hct

theorem lookup_objDelete {α : Type} (k : String) (l : List (String × α)) :
    (objDelete k l).lookup k = none :=
  lookup_eq_none_of_keys_str k _ (fun c hc => by
    simpa using (List.mem_filter.mp hc).2)

theorem objSet_fresh {α : Type} (k : String) (v : α) (l : List (String × α))
    (h : ∀ c ∈ l, c.1 ≠ k) : objSet k v l = l ++ [(k, v)] := by
  induction l with
  | nil => rfl
  | cons e t ih =>
    obtain ⟨k', v'⟩ := e
    have hk : k' ≠ k := h (k', v') (List.mem_cons_self _ _)
    rw [objSet, if_neg hk, List.cons_append,
      ih (fun c hc => h c (List.mem_cons_of_mem _ hc))]

theorem objDelete_roundtrip {α : Type} (k : String) (v : α) (l : List (String × α))
    (h : ∀ c ∈ l, c.1 ≠ k) : objDelete k (l ++ [(k, v)]) = l := by
  rw [objDelete, List.filter_append]
  have h1 : l.filter (fun e => e.1 ≠ k) = l :=
    List.filter_eq_self.mpr (fun c hc => by simpa using h c hc)
  have h2 : ([(k, v)] : List (String × α)).filter (fun e => e.1 ≠ k) = [] := by
    simp
  rw [h1, h2, List.append_nil]

/-- C8: registering a ray query stores the callback in the events map under
the synthesized uuid and sends the worker `addRay` carrying that uuid and
the chosen mode; running the cleanup sends `removeRay` with the same uuid
and deletes the entry, so after cleanup the map has no entry for the uuid —
and for a fresh uuid the register/cleanup pair restores the events map
exactly. -/
theorem c8_inject_ray_roundtrip {α : Type} (mode : RayMode) (cb : α)
    (uuid : String) (events : List (String × α)) :
    (injectRayEffect mode cb uuid events).2 = PhysicsMsg.addRay uuid mode
    ∧ (injectRayEffect mode cb uuid events).1.lookup uuid = some cb
    ∧ (injectRayCleanup uuid (injectRayEffect mode cb uuid events).1).2
        = PhysicsMsg.removeRay uuid
    ∧ (injectRayCleanup uuid (injectRayEffect mode cb uuid events).1).1.lookup uuid
        = none
    ∧ (events.lookup uuid = none →
        (injectRayCleanup uuid (injectRayEffect mode cb uuid events).1).1 = events) := by
  refine ⟨rfl, lookup_objSet uuid cb events, rfl, lookup_objDelete uuid _, ?_⟩
  intro hfresh
  have hkeys := lookup_none_keys_str uuid events hfresh
  show objDelete uuid (objSet uuid cb events) = events
  rw [objSet_fresh uuid cb events hkeys]
  exact objDelete_roundtrip uuid cb events hkeys

theorem c8_inject_ray_roundtrip_witness :
    (injectRayCleanup "ray-1"
      (injectRayEffect RayMode.Closest (42 : Nat) "ray-1"
        [("other", 7)]).1).1 = [("other", 7)] :=
  (c8_inject_ray_roundtrip RayMode.Closest 42 "ray-1" [("other", 7)]).2.2.2.2
    (by decide)

/-! ## Pointer-prefix compute function (`canvas.ts`, `noZoneRender`
lines 231–241) -/

inductive NgtEventPrefix where
  | offset
  | client
  | page
  | layer
  | screen
  deriving DecidableEq, Repr

def prefixString : NgtEventPrefix → String
  | .offset => "offset"
  | .client => "client"
  | .page => "page"
  | .layer => "layer"
  | .screen => "screen"

/-- The coordinate fields of a native pointer event (`ℚ` models the JS
float coordinates). -/
structure DomPointerEvent where
  offsetX : ℚ := 0
  offsetY : ℚ := 0
  clientX : ℚ := 0
  clientY : ℚ := 0
  pageX : ℚ := 0
  pageY : ℚ := 0
  layerX : ℚ := 0
  layerY : ℚ := 0
  screenX : ℚ := 0
  screenY : ℚ := 0
  deriving DecidableEq, Repr

/-- `event[name]` for the ten coordinate field names. -/
def eventField (e : DomPointerEvent) (name : String) : ℚ :=
  if name = "offsetX" then e.offsetX
  else if name = "offsetY" then e.offsetY
  else if name = "clientX" then e.clientX
  else if name = "clientY" then e.clientY
  else if name = "pageX" then e.pageX
  else if name = "pageY" then e.pageY
  else if name = "layerX" then e.layerX
  else if name = "layerY" then e.layerY
  else if name = "screenX" then e.screenX
  else if name = "screenY" then e.screenY
  else 0

structure NgtSize where
  width : ℚ
  height : ℚ
  deriving DecidableEq, Repr

/-- What the configured compute writes: the store's 2D pointer and the
`raycaster.setFromCamera(pointer, camera)` call arguments (the camera is an
opaque engine handle, identified numerically). -/
structure ComputeResult where
  pointer : ℚ × ℚ
  setFromCameraArgs : (ℚ × ℚ) × Nat
  deriving DecidableEq, Repr

/-- The compute function installed by `noZoneRender` (canvas.ts lines
231–241): read `event[eventPrefix + 'X']` and `event[eventPrefix + 'Y']`,
set the pointer to normalized device coordinates, then point the raycaster
from the camera with that pointer. -/
def computeFn (eventPrefix : NgtEventPrefix) (e : DomPointerEvent)
    (size : NgtSize) (camera : Nat) : ComputeResult :=
  let x := eventField e (prefixString eventPrefix ++ "X")
  let y := eventField e (prefixString eventPrefix ++ "Y")
  let pointer : ℚ × ℚ := ((x / size.width) * 2 - 1, -(y / size.height) * 2 + 1)
  { pointer := pointer, setFromCameraArgs := (pointer, camera) }

/-- Direct field selection per prefix — the fields the spec says are read. -/
def coordX : NgtEventPrefix → DomPointerEvent → ℚ
  | .offset, e => e.offsetX
  | .client, e => e.clientX
  | .page, e => e.pageX
  | .layer, e => e.layerX
  | .screen, e => e.screenX

def coordY : NgtEventPrefix → DomPointerEvent → ℚ
  | .offset, e => e.offsetY
  | .client, e => e.clientY
  | .page, e => e.pageY
  | .layer, e => e.layerY
  | .screen, e => e.screenY

theorem eventField_prefixX (p : NgtEventPrefix) (e : DomPointerEvent) :
    eventField e (prefixString p ++ "X") = coordX p e := by
  cases p <;> rfl

theorem eventField_prefixY (p : NgtEventPrefix) (e : DomPointerEvent) :
    eventField e (prefixString p ++ "Y") = coordY p e := by
  cases p <;> rfl

/-- C9: for every configured prefix in {offset, client, page, layer,
screen} the compute function reads exactly the event fields named
`<prefix>X` / `<prefix>Y`, sets the store's 2D pointer to
`((x / width) * 2 - 1, -(y / height) * 2 + 1)`, and hands that very pointer
together with the camera to `raycaster.setFromCamera`; no other coordinate
field of the event influences the result. -/
theorem c9_compute_pointer_fields (p : NgtEventPrefix) (e : DomPointerEvent)
    (size : NgtSize) (camera : Nat) :
    (computeFn p e size camera).pointer
        = ((coordX p e / size.width) * 2 - 1, -(coordY p e / size.height) * 2 + 1)
    ∧ (computeFn p e size camera).setFromCameraArgs
        = ((computeFn p e size camera).pointer, camera)
    ∧ (∀ e' : DomPointerEvent, coordX p e' = coordX p e → coordY p e' = coordY p e →
        computeFn p e' size camera = computeFn p e size camera) := by
  refine ⟨?_, rfl, ?_⟩
  · simp [computeFn, eventField_prefixX, eventField_prefixY]
  · intro e' hx hy
    simp [computeFn, eventField_prefixX, eventField_prefixY, hx, hy]

def evC9 : DomPointerEvent := { offsetX := 10, offsetY := 20 }

/-- Same offset coordinates as `evC9`, different client/page/screen ones. -/
def evC9' : DomPointerEvent :=
  { offsetX := 10, offsetY := 20, clientX := 99, clientY := 98, pageX := 97,
    pageY := 96, layerX := 95, layerY := 94, screenX := 93, screenY := 92 }

theorem c9_compute_pointer_fields_witness :
    computeFn NgtEventPrefix.offset evC9' ⟨800, 600⟩ 1
      = computeFn NgtEventPrefix.offset evC9 ⟨800, 600⟩ 1 :=
  (c9_compute_pointer_fields NgtEventPrefix.offset evC9 ⟨800, 600⟩ 1).2.2 evC9' rfl rfl

end AngularThree
